import Mathlib

/-!
Verification of the multi-turn tool-calling orchestration loop
`CareCoordinatorLLM.chat` from `backend/llm.py`.

The embedding models the loop faithfully:
* the OpenAI client is an oracle `respond` indexed by the number of
  inference calls made so far (each execution trace of the real,
  conversation-reading client is one such oracle); a raised exception is
  `Except.error`;
* `tools.TOOLS` (the `tools` module is reached only through this mapping)
  is an abstract name-to-handler map; a handler that raises is a handler
  returning `Except.error`;
* `json.loads` on a raw argument payload is an abstract parser `loads`
  returning `none` on `JSONDecodeError`;
* `json.dumps` on a handler result may raise (`PyObj.unserializable`),
  while the error dictionaries the loop itself builds always serialize.

The outcome records the Python return value (which may be `None`), the
conversation passed to each inference call, and the final conversation.
-/

namespace CareLLM

/-- Parsed keyword arguments (the result of `json.loads` on a payload),
as ordered name/value pairs. -/
abbrev Args := List (String × String)

/-- A tool call returned by the model: opaque id, tool name, raw
(unparsed) argument payload (`llm.py` lines 180-190). -/
structure ToolCall where
  id : String
  name : String
  arguments : String
deriving DecidableEq

/-- A transcript message. `tool_calls = []` models an absent
`tool_calls` key; `content = none` models Python `None`. -/
structure Msg where
  role : String
  content : Option String
  tool_calls : List ToolCall
  tool_call_id : Option String
deriving DecidableEq

/-- What one inference call returns (`response.choices[0].message`):
optional content and a possibly empty tool-call list. -/
structure ModelResponse where
  content : Option String
  tool_calls : List ToolCall
deriving DecidableEq

/-- A Python value produced by tool dispatch, seen through `json.dumps`:
the error dictionary `\x7b"error": msg\x7d` built by the loop itself, any
other serializable value (given by its serialization), or a value on
which `json.dumps` raises. -/
inductive PyObj where
  | errDict : String → PyObj
  | jsonable : String → PyObj
  | unserializable : String → PyObj
deriving DecidableEq

/-- Whether a dispatch result is the error dictionary built by the loop. -/
def isErrDict : PyObj → Bool
  | .errDict _ => true
  | _ => false

/-- The result of `json.dumps` on the error dictionary `\x7b"error": m\x7d`. -/
def jsonErrString (m : String) : String :=
  "\x7b\"error\": \"" ++ m ++ "\"\x7d"

/-- Serialization (`json.dumps`) of a dispatch result (`llm.py` line 227): total on the
error dictionary, raises on unserializable handler output. -/
def dumps : PyObj → Except String String
  | .errDict m => .ok (jsonErrString m)
  | .jsonable s => .ok s
  | .unserializable m => .error m

/-- The environment of one `chat` invocation: the system prompt, the
argument parser (`json.loads`), the tool registry (`tools.TOOLS`; the
`tools` module itself is outside the orchestration core, so handlers are
abstract), and the inference client, indexed by how many inference calls
were already made in this invocation. -/
structure Env where
  system_prompt : String
  loads : String → Option Args
  tools : String → Option (Args → Except String PyObj)
  respond : Nat → Except String ModelResponse

/-- The system message prepended by priming (`llm.py` line 154). -/
def systemMsg (s : String) : Msg := ⟨"system", some s, [], none⟩

/-- The assistant message built from a model response
(`llm.py` lines 175-190). -/
def assistantMsg (c : Option String) (tcs : List ToolCall) : Msg :=
  ⟨"assistant", c, tcs, none⟩

/-- The tool-result message appended after a dispatch
(`llm.py` lines 224-228). -/
def toolMsg (id content : String) : Msg :=
  ⟨"tool", some content, [], some id⟩

/-- Priming (`llm.py` lines 153-154): prepend the system directive when
the list is empty or its first entry is not system-role. -/
def prime (sp : String) (messages : List Msg) : List Msg :=
  match messages with
  | [] => [systemMsg sp]
  | m :: _ => if m.role = "system" then messages else systemMsg sp :: messages

/-- Spec-side condition, from the words of the spec: the input already
starts with a system-role entry (the negation of "empty or first entry
not system-role"). -/
def isPrimed : List Msg → Bool
  | [] => false
  | m :: _ => m.role == "system"

/-- The number of leading system-role entries of a transcript. -/
def leadingSystem (ms : List Msg) : Nat :=
  (ms.takeWhile (fun m => m.role == "system")).length

/-- Argument parsing for one call (`llm.py` lines 204-209): on
`JSONDecodeError` the code falls back to the empty dictionary. -/
def parsedArgs (env : Env) (tc : ToolCall) : Args :=
  (env.loads tc.arguments).getD []

/-- The guarded handler invocation (`llm.py` lines 212-221): a raise is
caught and becomes the error dictionary. -/
def invokeHandler (h : Args → Except String PyObj) (a : Args) : PyObj :=
  match h a with
  | .ok r => r
  | .error e => .errDict e

/-- Dispatch of one tool call (`llm.py` lines 211-221): unknown names
yield the error dictionary, otherwise the handler runs on the parsed
(or defaulted) arguments. -/
def dispatchResult (env : Env) (tc : ToolCall) : PyObj :=
  match env.tools tc.name with
  | some h => invokeHandler h (parsedArgs env tc)
  | none => .errDict ("Unknown tool: " ++ tc.name)

/-- Dispatch of one call followed by serialization of its result
(`llm.py` lines 211-228); `Except.error` is a `json.dumps` failure,
which the per-handler guard does not cover. -/
def runCall (env : Env) (tc : ToolCall) : Except String Msg :=
  match dumps (dispatchResult env tc) with
  | .ok s => .ok (toolMsg tc.id s)
  | .error e => .error e

/-- The per-round tool loop (`llm.py` lines 200-228): the result
message of each call is appended before the next call; a serialization failure stops
the round and reports the exception. -/
def runCalls (env : Env) (conv : List Msg) : List ToolCall → List Msg × Option String
  | [] => (conv, none)
  | tc :: rest =>
    match runCall env tc with
    | .ok m => runCalls env (conv ++ [m]) rest
    | .error e => (conv, some e)

/-- The apology returned when an iteration body raises
(`llm.py` line 232). -/
def apologyError (e : String) : String :=
  "I apologize, but I encountered an error: " ++ e

/-- The fixed exhaustion apology (`llm.py` line 236). -/
def apologyExhausted : String :=
  "I apologize, but I\x27m having trouble completing this request. Could you try rephrasing?"

/-- The observable outcome of `chat`: the Python return value (possibly
`None`), the conversation passed to each inference call in order, and
the final conversation. -/
structure ChatOutcome where
  result : Option String
  sent : List (List Msg)
  final : List Msg
deriving DecidableEq

/-- The `for iteration in range(max_iterations)` loop of `chat`
(`llm.py` lines 158-236), with the iterations still to run as fuel. -/
def chatLoop (env : Env) : Nat → List Msg → List (List Msg) → ChatOutcome
  | 0, conv, sent => ⟨some apologyExhausted, sent, conv⟩
  | fuel + 1, conv, sent =>
    match env.respond sent.length with
    | .error e => ⟨some (apologyError e), sent ++ [conv], conv⟩
    | .ok resp =>
      if resp.tool_calls.isEmpty then
        ⟨resp.content, sent ++ [conv], conv ++ [assistantMsg resp.content resp.tool_calls]⟩
      else
        match runCalls env (conv ++ [assistantMsg resp.content resp.tool_calls]) resp.tool_calls with
        | (conv2, some e) => ⟨some (apologyError e), sent ++ [conv], conv2⟩
        | (conv2, none) => chatLoop env fuel conv2 (sent ++ [conv])

/-- The entry point `CareCoordinatorLLM.chat` (`llm.py` lines 139-236). `max_iterations`
is an integer (Python allows non-positive values; `range` then runs zero
iterations, which `Int.toNat` captures). -/
def chat (env : Env) (messages : List Msg) (max_iterations : Int) : ChatOutcome :=
  chatLoop env max_iterations.toNat (prime env.system_prompt messages) []

/-- The default iteration budget of `chat`. -/
def defaultMaxIterations : Int := 10

/-- The appended part of a transcript consists exactly of complete
rounds: an assistant message, then one tool-role message per requested
call — with the matching `tool_call_id`, in call order — and nothing
else. With no calls pending only an assistant message may follow, so a
duplicate, orphan, or extra tool-result message is rejected, as is any
other stray message: an assistant message carrying N calls is followed
by exactly N tool-result messages. The first argument is the list of
calls still awaiting their results. -/
def answeredFrom : List ToolCall → List Msg → Bool
  | [], [] => true
  | [], m :: rest => m.role == "assistant" && answeredFrom m.tool_calls rest
  | _ :: _, [] => false
  | tc :: tcs, m :: rest =>
    m.role == "tool" && m.tool_call_id == some tc.id && answeredFrom tcs rest

/-- Round `k` completed and continued the loop: the inference call
succeeded, requested at least one tool call, and every requested call
dispatched and serialized without an uncaught exception. -/
def roundOk (env : Env) (k : Nat) : Prop :=
  ∃ r, env.respond k = .ok r ∧ r.tool_calls ≠ [] ∧
    ∀ tc ∈ r.tool_calls, ∃ m, runCall env tc = .ok m

/-! Concrete environments used to exercise the theorems. -/

/-- A client that immediately answers with content and no tool calls. -/
def envDone : Env :=
  ⟨"S", fun _ => some [], fun _ => none, fun _ => .ok ⟨some "hi", []⟩⟩

/-- A handler whose output records the arguments it actually received. -/
def hEcho : Args → Except String PyObj :=
  fun a => .ok (.jsonable (if a = [] then "EMPTY_ARGS_CALL" else "OTHER"))

/-- An environment whose parser always fails (`JSONDecodeError` on every
payload) and whose registry maps tool `"t"` to `hEcho`. -/
def envParseFail : Env :=
  ⟨"S", fun _ => none, fun n => if n = "t" then some hEcho else none,
    fun _ => .ok ⟨some "hi", []⟩⟩

/-- A tool call for tool `"t"` with an unparseable payload. -/
def tcBad : ToolCall := ⟨"id1", "t", "garbage"⟩

/-- A tool call for tool `"t"` used by the alternation scenario. -/
def tcT : ToolCall := ⟨"id1", "t", "x"⟩

/-- A client requesting one `"t"` call in round 0, then answering; the
registry serves tool `"t"`. -/
def envOneRound : Env :=
  ⟨"S", fun _ => some [], fun n => if n = "t" then some (fun _ => .ok (.jsonable "1")) else none,
    fun k => if k = 0 then .ok ⟨none, [tcT]⟩ else .ok ⟨some "done", []⟩⟩

/-- A client that requests a `"t"` call on every round, never answering. -/
def envLoopy : Env :=
  ⟨"S", fun _ => some [], fun n => if n = "t" then some (fun _ => .ok (.jsonable "1")) else none,
    fun _ => .ok ⟨none, [tcT]⟩⟩

/-- A client that raises `"boom"` on its first call. -/
def envClientFail : Env :=
  ⟨"S", fun _ => some [], fun _ => none,
    fun k => if k = 0 then .error "boom" else .ok ⟨some "x", []⟩⟩

/-- A client that returns null content and zero tool calls. -/
def envNullDone : Env :=
  ⟨"S", fun _ => some [], fun _ => none, fun _ => .ok ⟨none, []⟩⟩

/-- A registry with a raising tool `"bad"` and two working tools. -/
def envSiblings : Env :=
  ⟨"S", fun _ => some [],
    fun n =>
      if n = "bad" then some (fun _ => .error "crash")
      else if n = "good" then some (fun _ => .ok (.jsonable "42"))
      else none,
    fun k => if k = 0 then .ok ⟨none, [⟨"g1", "good", "x"⟩, ⟨"b", "bad", "x"⟩, ⟨"g2", "good", "x"⟩]⟩
             else .ok ⟨some "done", []⟩⟩

/-- A tool call whose handler output `json.dumps` cannot serialize. -/
def tcUnser : ToolCall := ⟨"u", "s", "x"⟩

/-- A registry whose tool `"s"` returns an unserializable object, with a
client requesting it in round 0. -/
def envUnserializable : Env :=
  ⟨"S", fun _ => some [], fun n => if n = "s" then some (fun _ => .ok (.unserializable "bad obj")) else none,
    fun k => if k = 0 then .ok ⟨none, [tcUnser]⟩ else .ok ⟨some "x", []⟩⟩

/-! Helper lemmas about dispatch and the loop. -/

theorem runCall_ok_shape (env : Env) (tc : ToolCall) (m : Msg)
    (h : runCall env tc = .ok m) : ∃ s, m = toolMsg tc.id s := by
  unfold runCall at h
  cases hd : dumps (dispatchResult env tc) with
  | ok s => rw [hd] at h; exact ⟨s, by injection h with h; exact h.symm⟩
  | error e => rw [hd] at h; cases h

theorem runCalls_none_shape (env : Env) :
    ∀ (tcs : List ToolCall) (conv conv' : List Msg),
      runCalls env conv tcs = (conv', none) →
      ∃ ms, conv' = conv ++ ms ∧
        List.Forall₂ (fun tc m => runCall env tc = .ok m) tcs ms := by
  intro tcs
  induction tcs with
  | nil =>
    intro conv conv' h
    unfold runCalls at h
    injection h with h1 _
    exact ⟨[], by simp [h1.symm], List.Forall₂.nil⟩
  | cons tc rest ih =>
    intro conv conv' h
    unfold runCalls at h
    cases hc : runCall env tc with
    | ok m =>
      rw [hc] at h
      obtain ⟨ms, hms, hall⟩ := ih (conv ++ [m]) conv' h
      exact ⟨m :: ms, by simp [hms], List.Forall₂.cons hc hall⟩
    | error e =>
      rw [hc] at h
      injection h with _ h2
      cases h2

theorem runCalls_ok_append (env : Env) :
    ∀ (xs : List ToolCall) (ms : List Msg),
      List.Forall₂ (fun tc m => runCall env tc = .ok m) xs ms →
      ∀ (conv : List Msg) (ys : List ToolCall),
        runCalls env conv (xs ++ ys) = runCalls env (conv ++ ms) ys := by
  intro xs ms hall
  induction hall with
  | nil => intro conv ys; simp
  | cons h₁ h₂ ih =>
    rename_i tc m xs' ms'
    intro conv ys
    have step : runCalls env conv ((tc :: xs') ++ ys) = runCalls env (conv ++ [m]) (xs' ++ ys) := by
      simp only [List.cons_append, runCalls, h₁, List.append_eq]
    rw [step, ih]
    simp

theorem exists_forall₂_of_forall_ok (env : Env) :
    ∀ (tcs : List ToolCall),
      (∀ tc ∈ tcs, ∃ m, runCall env tc = .ok m) →
      ∃ ms, List.Forall₂ (fun tc m => runCall env tc = .ok m) tcs ms := by
  intro tcs
  induction tcs with
  | nil => intro _; exact ⟨[], List.Forall₂.nil⟩
  | cons tc rest ih =>
    intro h
    obtain ⟨m, hm⟩ := h tc (List.mem_cons_self tc rest)
    obtain ⟨ms, hms⟩ := ih (fun tc' htc' => h tc' (List.mem_cons_of_mem tc htc'))
    exact ⟨m :: ms, List.Forall₂.cons hm hms⟩

theorem runCalls_all_ok (env : Env) (tcs : List ToolCall)
    (h : ∀ tc ∈ tcs, ∃ m, runCall env tc = .ok m) (conv : List Msg) :
    ∃ ms, runCalls env conv tcs = (conv ++ ms, none) ∧
      List.Forall₂ (fun tc m => runCall env tc = .ok m) tcs ms := by
  obtain ⟨ms, hms⟩ := exists_forall₂_of_forall_ok env tcs h
  refine ⟨ms, ?_, hms⟩
  have := runCalls_ok_append env tcs ms hms conv []
  simpa [runCalls] using this

theorem chatLoop_reach (env : Env) :
    ∀ (k fuel : Nat) (conv : List Msg) (sent : List (List Msg)),
      (∀ j, j < k → roundOk env (sent.length + j)) →
      ∃ conv' sent', sent'.length = sent.length + k ∧
        chatLoop env (fuel + k) conv sent = chatLoop env fuel conv' sent' := by
  intro k
  induction k with
  | zero =>
    intro fuel conv sent _
    exact ⟨conv, sent, by simp, by simp⟩
  | succ k ih =>
    intro fuel conv sent h
    obtain ⟨r, hr, hne, hok⟩ := h 0 (Nat.succ_pos k)
    rw [Nat.add_zero] at hr
    have hne' : r.tool_calls.isEmpty = false := by
      cases hcalls : r.tool_calls with
      | nil => exact absurd hcalls hne
      | cons a l => rfl
    obtain ⟨ms, hms, _⟩ :=
      runCalls_all_ok env r.tool_calls hok (conv ++ [assistantMsg r.content r.tool_calls])
    have hfuel : fuel + (k + 1) = (fuel + k) + 1 := by omega
    have hstep : chatLoop env (fuel + (k + 1)) conv sent =
        chatLoop env (fuel + k) ((conv ++ [assistantMsg r.content r.tool_calls]) ++ ms)
          (sent ++ [conv]) := by
      rw [hfuel]
      simp only [chatLoop, hr, hne', hms]
      simp
    have h' : ∀ j, j < k → roundOk env ((sent ++ [conv]).length + j) := by
      intro j hj
      have hidx : (sent ++ [conv]).length + j = sent.length + (j + 1) := by
        simp [List.length_append]
        omega
      rw [hidx]
      exact h (j + 1) (by omega)
    obtain ⟨conv', sent', hlen, heq⟩ :=
      ih fuel ((conv ++ [assistantMsg r.content r.tool_calls]) ++ ms) (sent ++ [conv]) h'
    refine ⟨conv', sent', ?_, ?_⟩
    · simp [List.length_append] at hlen
      omega
    · rw [hstep]
      exact heq

theorem chatLoop_sent_le (env : Env) :
    ∀ (fuel : Nat) (conv : List Msg) (sent : List (List Msg)),
      (chatLoop env fuel conv sent).sent.length ≤ sent.length + fuel := by
  intro fuel
  induction fuel with
  | zero => intro conv sent; simp [chatLoop]
  | succ fuel ih =>
    intro conv sent
    unfold chatLoop
    split
    · simp
    · split
      · simp
      · split
        · rename_i conv2 e heq
          simp
        · rename_i conv2 heq
          have := ih conv2 (sent ++ [conv])
          simp [List.length_append] at this ⊢
          omega

theorem chatLoop_classify (env : Env) :
    ∀ (fuel : Nat) (conv : List Msg) (sent : List (List Msg)),
      (chatLoop env fuel conv sent).result = some apologyExhausted ∨
      (∃ e, (chatLoop env fuel conv sent).result = some (apologyError e)) ∨
      (∃ k r, env.respond k = .ok r ∧ r.tool_calls = [] ∧
        (chatLoop env fuel conv sent).result = r.content) := by
  intro fuel
  induction fuel with
  | zero => intro conv sent; left; simp [chatLoop]
  | succ fuel ih =>
    intro conv sent
    unfold chatLoop
    split
    · rename_i e heq
      right; left; exact ⟨e, rfl⟩
    · rename_i r heq
      split
      · rename_i hemp
        right; right
        exact ⟨sent.length, r, heq, List.isEmpty_iff.mp hemp, rfl⟩
      · split
        · rename_i conv2 e hrc
          right; left; exact ⟨e, rfl⟩
        · rename_i conv2 hrc
          exact ih conv2 (sent ++ [conv])

theorem answeredFrom_append :
    ∀ (xs : List Msg) (tcs : List ToolCall) (ys : List Msg),
      answeredFrom tcs xs = true →
      answeredFrom tcs (xs ++ ys) = answeredFrom [] ys := by
  intro xs
  induction xs with
  | nil =>
    intro tcs ys h
    cases tcs with
    | nil => simp
    | cons tc tcs' => simp [answeredFrom] at h
  | cons msg xs' ih =>
    intro tcs ys h
    cases tcs with
    | nil =>
      simp only [answeredFrom, Bool.and_eq_true] at h
      obtain ⟨h1, h2⟩ := h
      rw [List.cons_append]
      simp only [answeredFrom, h1, Bool.true_and]
      exact ih msg.tool_calls ys h2
    | cons tc tcs' =>
      simp only [answeredFrom, Bool.and_eq_true] at h
      obtain ⟨⟨h1, h2⟩, h3⟩ := h
      rw [List.cons_append]
      simp only [answeredFrom, h1, h2, Bool.true_and]
      exact ih tcs' ys h3

theorem answeredFrom_of_forall₂ (env : Env) :
    ∀ (tcs : List ToolCall) (ms : List Msg),
      List.Forall₂ (fun tc m => runCall env tc = .ok m) tcs ms →
      answeredFrom tcs ms = true := by
  intro tcs ms h
  induction h with
  | nil => rfl
  | cons h1 h2 ih =>
    rename_i tc m tcs' ms'
    obtain ⟨s, hs⟩ := runCall_ok_shape env tc m h1
    subst hs
    simp [answeredFrom, toolMsg, ih]

theorem answeredFrom_assistant_block (env : Env) (c : Option String)
    (tcs : List ToolCall) (ms : List Msg)
    (h : List.Forall₂ (fun tc m => runCall env tc = .ok m) tcs ms) :
    answeredFrom [] (assistantMsg c tcs :: ms) = true := by
  have hstep : answeredFrom [] (assistantMsg c tcs :: ms) = answeredFrom tcs ms := by
    simp [answeredFrom, assistantMsg]
  rw [hstep]
  exact answeredFrom_of_forall₂ env tcs ms h

theorem answeredFrom_rejects_duplicate_result :
    answeredFrom [] [assistantMsg none [tcT], toolMsg "id1" "1", toolMsg "id1" "1"] = false := by
  decide

theorem answeredFrom_rejects_orphan_result :
    answeredFrom [] [toolMsg "id1" "1"] = false := by
  decide

theorem answeredFrom_rejects_interleaved_result :
    answeredFrom [] [assistantMsg none [tcT], toolMsg "id1" "1", toolMsg "x" "1",
      assistantMsg (some "a") []] = false := by
  decide

theorem chatLoop_sent_answered (env : Env) (p : List Msg) :
    ∀ (fuel : Nat) (conv : List Msg) (sent : List (List Msg)),
      (∃ s, conv = p ++ s ∧ answeredFrom [] s = true) →
      (∀ c ∈ sent, ∃ s, c = p ++ s ∧ answeredFrom [] s = true) →
      ∀ c ∈ (chatLoop env fuel conv sent).sent,
        ∃ s, c = p ++ s ∧ answeredFrom [] s = true := by
  intro fuel
  induction fuel with
  | zero =>
    intro conv sent hconv hsent
    simpa [chatLoop] using hsent
  | succ fuel ih =>
    intro conv sent hconv hsent
    have hmem : ∀ c ∈ sent ++ [conv], ∃ s, c = p ++ s ∧ answeredFrom [] s = true := by
      intro c hc
      simp only [List.mem_append, List.mem_singleton] at hc
      rcases hc with hc | hc
      · exact hsent c hc
      · exact hc ▸ hconv
    unfold chatLoop
    split
    · exact hmem
    next r hr =>
      split
      · exact hmem
      next hne =>
        split
        · exact hmem
        next conv2 hrc =>
          obtain ⟨ms, hms, hall⟩ := runCalls_none_shape env r.tool_calls
            (conv ++ [assistantMsg r.content r.tool_calls]) conv2 hrc
          obtain ⟨s, hconv_eq, hans⟩ := hconv
          apply ih conv2 (sent ++ [conv])
          · refine ⟨s ++ (assistantMsg r.content r.tool_calls :: ms), ?_, ?_⟩
            · rw [hms, hconv_eq]
              simp
            · rw [answeredFrom_append s []
                (assistantMsg r.content r.tool_calls :: ms) hans]
              exact answeredFrom_assistant_block env r.content r.tool_calls ms hall
          · exact hmem

theorem chat_stops_at (env : Env) (msgs : List Msg) (m : Int) (k : Nat) (r : ModelResponse)
    (hgood : ∀ j, j < k → roundOk env j) (hk : k < m.toNat)
    (hr : env.respond k = .ok r) (hemp : r.tool_calls = []) :
    (chat env msgs m).result = r.content ∧ (chat env msgs m).sent.length = k + 1 := by
  obtain ⟨f, hf⟩ : ∃ f, m.toNat = (f + 1) + k := ⟨m.toNat - k - 1, by omega⟩
  obtain ⟨conv', sent', hlen, heq⟩ := chatLoop_reach env k (f + 1) (prime env.system_prompt msgs) []
    (by intro j hj; simpa using hgood j hj)
  have hsl : sent'.length = k := by simpa using hlen
  have hchat : chat env msgs m = chatLoop env (f + 1) conv' sent' := by
    unfold chat
    rw [hf]
    exact heq
  rw [hchat]
  unfold chatLoop
  rw [hsl, hr]
  simp [hemp, hsl]

/-! Claim theorems. -/

/-- C3: if the model response of a reachable round `k` requests zero
tool calls, `chat` returns the content of that round as the final answer and
performs no further inference calls (exactly `k + 1` in total),
independently of how many iterations remain. -/
theorem c3_done_on_zero_tool_calls (env : Env) (msgs : List Msg) (m : Int) (k : Nat)
    (r : ModelResponse) (hgood : ∀ j, j < k → roundOk env j) (hk : k < m.toNat)
    (hr : env.respond k = .ok r) (hemp : r.tool_calls = []) :
    (chat env msgs m).result = r.content ∧ (chat env msgs m).sent.length = k + 1 :=
  chat_stops_at env msgs m k r hgood hk hr hemp

/-- C3 witness: a client that answers at once; `chat` returns the
content after exactly one inference call. -/
theorem c3_witness :
    (chat envDone [] 10).result = some "hi" ∧ (chat envDone [] 10).sent.length = 0 + 1 :=
  c3_done_on_zero_tool_calls envDone [] 10 0 ⟨some "hi", []⟩
    (fun j hj => absurd hj (Nat.not_lt_zero j)) (by decide) rfl rfl

/-- C6 counterexample: on a response with null content and zero tool
calls, `chat` returns `message.content`, that is Python `None`, not the
empty string the claim asserts. -/
theorem c6_null_content_counterexample :
    (chat envNullDone [] 10).result = none ∧ (chat envNullDone [] 10).result ≠ some "" := by
  decide

/-- C6 amended: a response with null content and zero tool calls is a
DONE outcome (no further inference calls), but `chat` passes the null
content through unchanged: it returns `None`, not the empty string. -/
theorem c6_null_content_returns_none (env : Env) (msgs : List Msg) (m : Int) (k : Nat)
    (r : ModelResponse) (hgood : ∀ j, j < k → roundOk env j) (hk : k < m.toNat)
    (hr : env.respond k = .ok r) (hemp : r.tool_calls = []) (hc : r.content = none) :
    (chat env msgs m).result = none ∧ (chat env msgs m).sent.length = k + 1 := by
  have h := chat_stops_at env msgs m k r hgood hk hr hemp
  exact ⟨hc ▸ h.1, h.2⟩

/-- C6 witness: the amended theorem at a concrete null-content client. -/
theorem c6_witness :
    (chat envNullDone [] 10).result = none ∧ (chat envNullDone [] 10).sent.length = 0 + 1 :=
  c6_null_content_returns_none envNullDone [] 10 0 ⟨none, []⟩
    (fun j hj => absurd hj (Nat.not_lt_zero j)) (by decide) rfl rfl rfl

/-- C9: with a zero or negative `max_iterations` the `range` loop runs
zero iterations, so `chat` makes no inference call and returns the
fixed exhaustion apology. -/
theorem c9_nonpositive_budget (env : Env) (msgs : List Msg) (m : Int) (hm : m ≤ 0) :
    (chat env msgs m).result = some apologyExhausted ∧ (chat env msgs m).sent = [] := by
  have h0 : m.toNat = 0 := Int.toNat_of_nonpos hm
  unfold chat
  rw [h0]
  exact ⟨rfl, rfl⟩

/-- C9 witness: `max_iterations = -3` returns the exhaustion apology
with zero inference calls. -/
theorem c9_witness :
    (chat envDone [] (-3)).result = some apologyExhausted ∧ (chat envDone [] (-3)).sent = [] :=
  c9_nonpositive_budget envDone [] (-3) (by decide)

/-- C4: at most `max_iterations` inference rounds are ever executed;
and when every round within the budget completes with tool calls (so no
zero-tool-call response arrives), `chat` returns the fixed exhaustion
apology verbatim after exactly `max_iterations` rounds, synthesizing no
partial answer. -/
theorem c4_iteration_budget (env : Env) (msgs : List Msg) (m : Int) :
    (chat env msgs m).sent.length ≤ m.toNat ∧
    ((∀ j, j < m.toNat → roundOk env j) →
      (chat env msgs m).result = some apologyExhausted ∧
      (chat env msgs m).sent.length = m.toNat) := by
  constructor
  · have h := chatLoop_sent_le env m.toNat (prime env.system_prompt msgs) []
    simpa [chat] using h
  · intro h
    obtain ⟨conv', sent', hlen, heq⟩ := chatLoop_reach env m.toNat 0
      (prime env.system_prompt msgs) [] (by intro j hj; simpa using h j hj)
    rw [Nat.zero_add] at heq
    have hchat : chat env msgs m = chatLoop env 0 conv' sent' := heq
    rw [hchat]
    unfold chatLoop
    exact ⟨rfl, by simpa using hlen⟩

/-- C4 witness: a client that always requests a tool call exhausts a
budget of 2 after exactly 2 inference calls. -/
theorem c4_witness :
    (chat envLoopy [] 2).result = some apologyExhausted ∧
    (chat envLoopy [] 2).sent.length = (2 : Int).toNat := by
  have hgood : ∀ j, j < (2 : Int).toNat → roundOk envLoopy j := by
    intro j hj
    refine ⟨⟨none, [tcT]⟩, rfl, by decide, ?_⟩
    intro tc htc
    have htc' : tc = tcT := by simpa using htc
    subst htc'
    exact ⟨toolMsg "id1" "1", rfl⟩
  exact (c4_iteration_budget envLoopy [] 2).2 hgood

/-- C5: if the inference call of a reachable round `k` raises, `chat`
returns the apology embedding the error text, makes no further
inference calls (so no retry), and appends nothing after the transcript
that was sent to the failing call — in particular the failure is not
folded into the transcript as a tool result. -/
theorem c5_inference_failure_apology (env : Env) (msgs : List Msg) (m : Int) (k : Nat)
    (e : String) (hgood : ∀ j, j < k → roundOk env j) (hk : k < m.toNat)
    (he : env.respond k = .error e) :
    (chat env msgs m).result = some (apologyError e) ∧
    (chat env msgs m).sent.length = k + 1 ∧
    (chat env msgs m).sent.getLast? = some (chat env msgs m).final := by
  obtain ⟨f, hf⟩ : ∃ f, m.toNat = (f + 1) + k := ⟨m.toNat - k - 1, by omega⟩
  obtain ⟨conv', sent', hlen, heq⟩ := chatLoop_reach env k (f + 1)
    (prime env.system_prompt msgs) [] (by intro j hj; simpa using hgood j hj)
  have hsl : sent'.length = k := by simpa using hlen
  have hchat : chat env msgs m = chatLoop env (f + 1) conv' sent' := by
    unfold chat
    rw [hf]
    exact heq
  rw [hchat]
  unfold chatLoop
  rw [hsl, he]
  refine ⟨rfl, ?_, ?_⟩
  · simp [List.length_append, hsl]
  · rw [List.getLast?_append_cons]
    rfl

/-- C5 witness: the client raising `"boom"` on its first call. -/
theorem c5_witness :
    (chat envClientFail [] 10).result = some (apologyError "boom") ∧
    (chat envClientFail [] 10).sent.length = 0 + 1 ∧
    (chat envClientFail [] 10).sent.getLast? = some (chat envClientFail [] 10).final :=
  c5_inference_failure_apology envClientFail [] 10 0 "boom"
    (fun j hj => absurd hj (Nat.not_lt_zero j)) (by decide) rfl

/-- C10: once the loop has begun, `chat` never propagates an exception:
every invocation ends as the exhaustion apology, an error apology, or
the content of a zero-tool-call response (first conjunct); and in
particular a failure raised outside the per-handler guard — serializing
a tool result via `json.dumps` — is caught by the outer per-iteration
handler and converted into the error apology (second conjunct). -/
theorem c10_no_exception_escape (env : Env) (msgs : List Msg) (m : Int) :
    ((chat env msgs m).result = some apologyExhausted ∨
      (∃ e, (chat env msgs m).result = some (apologyError e)) ∨
      (∃ k r, env.respond k = .ok r ∧ r.tool_calls = [] ∧
        (chat env msgs m).result = r.content)) ∧
    (∀ (k : Nat) (r : ModelResponse) (pre post : List ToolCall) (tc : ToolCall) (e : String),
      (∀ j, j < k → roundOk env j) → k < m.toNat →
      env.respond k = .ok r → r.tool_calls = pre ++ tc :: post →
      (∀ tc' ∈ pre, ∃ m', runCall env tc' = .ok m') →
      runCall env tc = .error e →
      (chat env msgs m).result = some (apologyError e) ∧
      (chat env msgs m).sent.length = k + 1) := by
  constructor
  · exact chatLoop_classify env m.toNat (prime env.system_prompt msgs) []
  · intro k r pre post tc e hgood hk hr hcalls hpre htc
    obtain ⟨f, hf⟩ : ∃ f, m.toNat = (f + 1) + k := ⟨m.toNat - k - 1, by omega⟩
    obtain ⟨conv', sent', hlen, heq⟩ := chatLoop_reach env k (f + 1)
      (prime env.system_prompt msgs) [] (by intro j hj; simpa using hgood j hj)
    have hsl : sent'.length = k := by simpa using hlen
    have hchat : chat env msgs m = chatLoop env (f + 1) conv' sent' := by
      unfold chat
      rw [hf]
      exact heq
    have hne : r.tool_calls.isEmpty = false := by
      rw [hcalls]
      cases pre <;> rfl
    obtain ⟨ms1, h1⟩ := exists_forall₂_of_forall_ok env pre hpre
    have hrcalls : ∀ cv : List Msg, runCalls env cv (pre ++ tc :: post) = (cv ++ ms1, some e) := by
      intro cv
      rw [runCalls_ok_append env pre ms1 h1 cv (tc :: post)]
      simp only [runCalls, htc]
    rw [hchat]
    unfold chatLoop
    rw [hsl, hr]
    simp only [hne, Bool.false_eq_true, if_false]
    rw [hcalls, hrcalls (conv' ++ [assistantMsg r.content (pre ++ tc :: post)])]
    exact ⟨rfl, by simp [List.length_append, hsl]⟩

/-- C10 witness: a handler result `json.dumps` cannot serialize ends the
invocation with the error apology after one inference call. -/
theorem c10_witness :
    (chat envUnserializable [] 10).result = some (apologyError "bad obj") ∧
    (chat envUnserializable [] 10).sent.length = 0 + 1 := by
  refine (c10_no_exception_escape envUnserializable [] 10).2 0 ⟨none, [tcUnser]⟩ [] []
    tcUnser "bad obj" (fun j hj => absurd hj (Nat.not_lt_zero j)) (by decide) rfl rfl ?_ rfl
  intro tc' htc'
  cases htc'

/-- C2: every conversation passed to an inference call is the primed
input followed by nothing but complete rounds: each assistant message
carrying N tool calls is immediately followed by exactly N tool-role
messages with the matching `tool_call_id` values in call order, and no
other message — in particular no duplicate, orphan, or extra
tool-result message — appears in the appended part
(see `answeredFrom`). -/
theorem c2_transcript_alternation (env : Env) (msgs : List Msg) (m : Int) :
    ∀ c ∈ (chat env msgs m).sent,
      ∃ s, c = prime env.system_prompt msgs ++ s ∧ answeredFrom [] s = true := by
  intro c hc
  exact chatLoop_sent_answered env (prime env.system_prompt msgs) m.toNat
    (prime env.system_prompt msgs) [] ⟨[], by simp, rfl⟩ (fun c' hc' => absurd hc' (by simp)) c hc

/-- C2 witness: the conversation sent to the second inference call of a
one-tool-round run satisfies the alternation property. -/
theorem c2_witness :
    ∃ s, [systemMsg "S", assistantMsg none [tcT], toolMsg "id1" "1"] =
      prime envOneRound.system_prompt [] ++ s ∧ answeredFrom [] s = true :=
  c2_transcript_alternation envOneRound [] 10
    [systemMsg "S", assistantMsg none [tcT], toolMsg "id1" "1"] (by decide)

/-- C7 counterexample: an input whose first two entries are both
system-role is returned unchanged by priming, so the primed transcript
begins with two leading system-role entries, not exactly one. -/
theorem c7_leading_system_counterexample :
    leadingSystem (prime "S" [systemMsg "a", systemMsg "b"]) ≠ 1 := by
  decide

/-- C7 amended: priming prepends the fixed directive exactly when the
input is empty or starts with a non-system entry and otherwise returns
the input unchanged; the primed transcript begins with at least one
system-role entry — exactly one whenever the input did not already
begin with two — and priming is idempotent. (The embedding is pure, so
the list of the caller is never mutated by construction.) -/
theorem c7_prime_behavior (sp : String) (msgs : List Msg) :
    (prime sp msgs = if isPrimed msgs then msgs else systemMsg sp :: msgs) ∧
    1 ≤ leadingSystem (prime sp msgs) ∧
    prime sp (prime sp msgs) = prime sp msgs ∧
    (leadingSystem msgs ≤ 1 → leadingSystem (prime sp msgs) = 1) := by
  cases msgs with
  | nil =>
    refine ⟨by simp [prime, isPrimed], ?_, by simp [prime, systemMsg], ?_⟩
    · simp [prime, leadingSystem, systemMsg]
    · intro _
      simp [prime, leadingSystem, systemMsg]
  | cons msg rest =>
    by_cases hrole : msg.role = "system"
    · have hlead : 1 ≤ leadingSystem (msg :: rest) := by
        simp [leadingSystem, List.takeWhile, hrole]
      refine ⟨by simp [prime, isPrimed, hrole], ?_, by simp [prime, hrole], ?_⟩
      · simpa [prime, hrole] using hlead
      · intro hle
        have h1 : leadingSystem (msg :: rest) = 1 := by
          omega
        simpa [prime, hrole] using h1
    · have hbeq : (msg.role == "system") = false := by
        simp [hrole]
      have hlead : leadingSystem (systemMsg sp :: msg :: rest) = 1 := by
        simp [leadingSystem, List.takeWhile, systemMsg, hbeq]
      refine ⟨by simp [prime, isPrimed, hrole], ?_, ?_, ?_⟩
      · simp [prime, hrole, hlead]
      · simp [prime, systemMsg, hrole]
      · intro _
        simpa [prime, hrole] using hlead

/-- C7 witness: priming the empty input yields exactly one leading
system entry. -/
theorem c7_witness : leadingSystem (prime "S" []) = 1 :=
  (c7_prime_behavior "S" []).2.2.2 (by decide)

/-- C1 counterexample: with an unparseable payload, dispatch does not
return an error result and the handler is invoked — with the empty
argument map, as its recorded output shows. -/
theorem c1_parse_failure_counterexample :
    isErrDict (dispatchResult envParseFail tcBad) = false ∧
    runCall envParseFail tcBad = .ok (toolMsg "id1" "EMPTY_ARGS_CALL") := by
  constructor
  · rfl
  · rfl

/-- C1 amended: on a parse failure of the raw argument payload, the code
falls back to the empty argument map and invokes the registered handler
with it; dispatch returns the result of the handler (an error dictionary only
if the handler itself raises), so the handler can be invoked with empty
arguments. -/
theorem c1_parse_failure_invokes_handler (env : Env) (tc : ToolCall)
    (h : Args → Except String PyObj)
    (hparse : env.loads tc.arguments = none)
    (hreg : env.tools tc.name = some h) :
    dispatchResult env tc = invokeHandler h [] := by
  simp only [dispatchResult, hreg, parsedArgs, hparse]
  rfl

/-- C1 witness: the amended theorem at the concrete failing-parser
environment. -/
theorem c1_witness : dispatchResult envParseFail tcBad = invokeHandler hEcho [] :=
  c1_parse_failure_invokes_handler envParseFail tcBad hEcho rfl rfl

/-- C8: a handler that raises yields exactly the serialized
`\x7berror: <message>\x7d` tool result for its call; the round is not
aborted (the per-round loop returns no exception) and every sibling
call keeps its own, unchanged `runCall` output as its result. -/
theorem c8_handler_failure_isolated (env : Env) (conv : List Msg) (pre post : List ToolCall)
    (tc : ToolCall) (h : Args → Except String PyObj) (e : String)
    (hreg : env.tools tc.name = some h)
    (hraise : h (parsedArgs env tc) = .error e)
    (hsib : ∀ tc' ∈ pre ++ post, ∃ m', runCall env tc' = .ok m') :
    ∃ ms1 ms2,
      runCalls env conv (pre ++ tc :: post) =
        (conv ++ ms1 ++ toolMsg tc.id (jsonErrString e) :: ms2, none) ∧
      List.Forall₂ (fun tc' m' => runCall env tc' = .ok m') pre ms1 ∧
      List.Forall₂ (fun tc' m' => runCall env tc' = .ok m') post ms2 := by
  have htc : runCall env tc = .ok (toolMsg tc.id (jsonErrString e)) := by
    have hd : dispatchResult env tc = .errDict e := by
      simp only [dispatchResult, hreg, invokeHandler, hraise]
    unfold runCall
    rw [hd]
    rfl
  obtain ⟨ms1, h1⟩ := exists_forall₂_of_forall_ok env pre
    (fun tc' htc' => hsib tc' (List.mem_append_left post htc'))
  obtain ⟨ms2, h2⟩ := exists_forall₂_of_forall_ok env post
    (fun tc' htc' => hsib tc' (List.mem_append_right pre htc'))
  refine ⟨ms1, ms2, ?_, h1, h2⟩
  rw [runCalls_ok_append env pre ms1 h1 conv (tc :: post)]
  have hstep : runCalls env (conv ++ ms1) (tc :: post) =
      runCalls env ((conv ++ ms1) ++ [toolMsg tc.id (jsonErrString e)]) post := by
    simp only [runCalls, htc]
  rw [hstep]
  have hrest := runCalls_ok_append env post ms2 h2
    ((conv ++ ms1) ++ [toolMsg tc.id (jsonErrString e)]) []
  rw [List.append_nil] at hrest
  rw [hrest]
  simp [runCalls, List.append_assoc]

/-- C8 witness: a raising handler between two working siblings; the
round completes with the error result in place and both sibling
results intact. -/
theorem c8_witness :
    ∃ ms1 ms2,
      runCalls envSiblings [] ([⟨"g1", "good", "x"⟩] ++ ⟨"b", "bad", "x"⟩ :: [⟨"g2", "good", "x"⟩]) =
        ([] ++ ms1 ++ toolMsg "b" (jsonErrString "crash") :: ms2, none) ∧
      List.Forall₂ (fun tc' m' => runCall envSiblings tc' = .ok m') [⟨"g1", "good", "x"⟩] ms1 ∧
      List.Forall₂ (fun tc' m' => runCall envSiblings tc' = .ok m') [⟨"g2", "good", "x"⟩] ms2 := by
  refine c8_handler_failure_isolated envSiblings [] [⟨"g1", "good", "x"⟩] [⟨"g2", "good", "x"⟩]
    ⟨"b", "bad", "x"⟩ (fun _ => .error "crash") "crash" rfl rfl ?_
  intro tc' htc'
  simp only [List.mem_append, List.mem_singleton] at htc'
  rcases htc' with h | h <;> subst h <;> exact ⟨toolMsg _ "42", rfl⟩

end CareLLM
